import Mathlib

/-!
Verification development for a parallel DBSCAN clustering engine (D = 2).

The source implements a three-stage pipeline: a uniform spatial grid index
(`DBSCANGrid.h`), a grid-based neighbor-list builder (`DBSCAN::findNeighbors`),
and two classifiers: a sequential BFS expansion (`DBSCAN.cxx`,
`classify`/`expandCluster`) and a union-find based one (`classify` with
`find`/`unite` over atomic parents).  Coordinates are machine floats in the
source; the model uses exact rationals (ℚ).  Because the library's `Rat.add`,
`Rat.sub`, `Rat.mul`, `Rat.div` are irreducible (blocking kernel evaluation),
the model computes with explicit numerator/denominator operations (`qsub`,
`qabs`, `qdivTrunc`, `qdivCeil`) built on `mkRat`; each is proved equal to the
corresponding field operation on ℚ, so theorems can reason with ordinary
arithmetic while concrete runs evaluate by `decide`.
-/

set_option maxHeartbeats 2000000
set_option maxRecDepth 100000

namespace dbscan

/-- Exact rational subtraction, expressed via `mkRat` so that it evaluates in
the kernel.  Equals `a - b` (see `qsub_eq`). -/
def qsub (a b : ℚ) : ℚ := mkRat (a.num * b.den - b.num * a.den) (a.den * b.den)

/-- Exact rational absolute value via `mkRat`.  Equals `|a|` (see `qabs_eq`). -/
def qabs (a : ℚ) : ℚ := mkRat a.num.natAbs a.den

/-- Truncating division of rationals, `trunc (a / b)`, the value of C++'s
`static_cast<int32_t>(a / b)`; expressed with `Int.tdiv` (truncation toward
zero) so that it evaluates in the kernel.  For `0 ≤ a`, `0 < b` it equals
`⌊a / b⌋` (see `qdivTrunc_eq`). -/
def qdivTrunc (a b : ℚ) : ℤ := (a.num * b.den).tdiv (a.den * b.num)

/-- Ceiling division of rationals, the value of `std::ceil(a / b)`; for
`0 < b` it equals `⌈a / b⌉` (see `qdivCeil_eq`). -/
def qdivCeil (a b : ℚ) : ℤ := -(-(a.num * b.den) / (a.den * b.num))

lemma den_cast_ne_zero (a : ℚ) : ((a.den : ℚ)) ≠ 0 :=
  Nat.cast_ne_zero.mpr a.den_pos.ne'

lemma num_eq_mul_den (a : ℚ) : (a.num : ℚ) = a * a.den :=
  (div_eq_iff (den_cast_ne_zero a)).mp (Rat.num_div_den a)

lemma qsub_eq (a b : ℚ) : qsub a b = a - b := by
  unfold qsub
  rw [Rat.mkRat_eq_div]
  push_cast
  rw [div_eq_iff (mul_ne_zero (den_cast_ne_zero a) (den_cast_ne_zero b)),
    num_eq_mul_den a, num_eq_mul_den b]
  ring

lemma qabs_eq (a : ℚ) : qabs a = |a| := by
  unfold qabs
  rw [Rat.mkRat_eq_div]
  push_cast [Int.cast_natAbs]
  rw [show ((a.num : ℚ)) = a * a.den from num_eq_mul_den a, abs_mul,
    abs_of_pos (show (0:ℚ) < a.den by exact_mod_cast a.den_pos)]
  field_simp

lemma div_eq_num_den_quot (a b : ℚ) (hb : 0 < b) :
    a / b = ((a.num * b.den : ℤ) : ℚ) / ((a.den * b.num.toNat : ℕ) : ℚ) := by
  have hbnum : 0 < b.num := Rat.num_pos.mpr hb
  have htn : ((b.num.toNat : ℕ) : ℚ) = ((b.num : ℤ) : ℚ) := by
    exact_mod_cast Int.toNat_of_nonneg hbnum.le
  have hc : ((a.den * b.num.toNat : ℕ) : ℚ) = (a.den : ℚ) * (b.num : ℚ) := by
    push_cast
    rw [htn]
  have h2 : (0:ℚ) < (b.num : ℚ) := by exact_mod_cast hbnum
  rw [hc]
  push_cast
  rw [div_eq_div_iff hb.ne' (mul_ne_zero (den_cast_ne_zero a) h2.ne'),
    num_eq_mul_den a, num_eq_mul_den b]
  ring

lemma qdivTrunc_eq (a b : ℚ) (ha : 0 ≤ a) (hb : 0 < b) :
    qdivTrunc a b = ⌊a / b⌋ := by
  have hbnum : 0 < b.num := Rat.num_pos.mpr hb
  have hanum : 0 ≤ a.num := Rat.num_nonneg.mpr ha
  rw [div_eq_num_den_quot a b hb, Rat.floor_intCast_div_natCast]
  unfold qdivTrunc
  rw [Int.tdiv_eq_ediv (by positivity) (by positivity)]
  congr 1
  push_cast [Int.toNat_of_nonneg hbnum.le]
  ring

lemma qdivCeil_eq (a b : ℚ) (hb : 0 < b) : qdivCeil a b = ⌈a / b⌉ := by
  have hbnum : 0 < b.num := Rat.num_pos.mpr hb
  have hneg : -(a / b) = ((-(a.num * b.den) : ℤ) : ℚ) /
      ((a.den * b.num.toNat : ℕ) : ℚ) := by
    rw [div_eq_num_den_quot a b hb]
    push_cast
    ring
  rw [show ⌈a / b⌉ = -⌊-(a / b)⌋ by rw [Int.floor_neg]; ring,
    hneg, Rat.floor_intCast_div_natCast]
  unfold qdivCeil
  congr 2
  push_cast [Int.toNat_of_nonneg hbnum.le]
  ring

/-- A point of the plane (the source fixes `NDim = 2`, row-major floats). -/
abbrev Pt := ℚ × ℚ

/-- `DBSCANDistance::areNeighbors`: L∞ box test — true iff the coordinate
difference is within `eps` in every dimension (the source's short-circuiting
loop over `d < NDim` is the conjunction). -/
def areNeighbors (eps p q : Pt) : Bool :=
  decide (qabs (qsub p.1 q.1) ≤ eps.1) && decide (qabs (qsub p.2 q.2) ≤ eps.2)

lemma areNeighbors_iff (eps p q : Pt) :
    areNeighbors eps p q = true ↔ |p.1 - q.1| ≤ eps.1 ∧ |p.2 - q.2| ≤ eps.2 := by
  simp [areNeighbors, qabs_eq, qsub_eq]

lemma areNeighbors_comm (eps p q : Pt) :
    areNeighbors eps p q = areNeighbors eps q p := by
  simp only [areNeighbors, qabs_eq, qsub_eq]
  rw [abs_sub_comm p.1, abs_sub_comm p.2]

/-- The grid state after `Grid::initGrid`'s first three steps: the borrowed
point list, the per-dimension cell sizes (`eps`), the per-dimension minimum
bounds from `computeBounds`, and the cell counts from
`computeGridDimensions`.  (The maximum bounds are consumed only to compute
`dims` and are not stored further.) -/
structure Grid where
  pts : List Pt
  eps : Pt
  minB : Pt
  dims : ℕ × ℕ

/-- `Grid::computeBounds`, min part: per-dimension minimum over all points
(the source starts from `FLT_MAX` and folds `std::min`; for a nonempty list
that equals folding from the first point). -/
def computeMinBounds : List Pt → Pt
  | [] => (0, 0)
  | p :: ps => ps.foldl (fun a q => (min a.1 q.1, min a.2 q.2)) p

/-- `Grid::computeBounds`, max part. -/
def computeMaxBounds : List Pt → Pt
  | [] => (0, 0)
  | p :: ps => ps.foldl (fun a q => (max a.1 q.1, max a.2 q.2)) p

/-- `Grid::computeGridDimensions`:
`dims_d = max(1, (size_t)ceil((max_d − min_d) / eps_d))`. -/
def computeGridDims (mn mx eps : Pt) : ℕ × ℕ :=
  (max 1 (qdivCeil (qsub mx.1 mn.1) eps.1).toNat,
   max 1 (qdivCeil (qsub mx.2 mn.2) eps.2).toNat)

/-- The grid constructor plus `computeBounds`/`computeGridDimensions`
(steps 1–2 of `Grid::initGrid`). -/
def mkGrid (ps : List Pt) (eps : Pt) : Grid :=
  { pts := ps, eps := eps, minB := computeMinBounds ps,
    dims := computeGridDims (computeMinBounds ps) (computeMaxBounds ps) eps }

/-- `std::clamp(coord, 0, dims − 1)` on `int32_t`. -/
def clampCoord (dim : ℕ) (t : ℤ) : ℤ := max 0 (min t ((dim : ℤ) - 1))

/-- `Grid::getGridCoords`: per dimension,
`clamp((int32_t)((val − minBound) / cellSize), 0, dims − 1)` for point `idx`. -/
def Grid.getGridCoords (g : Grid) (idx : ℕ) : ℤ × ℤ :=
  let p := g.pts.getD idx (0, 0)
  (clampCoord g.dims.1 (qdivTrunc (qsub p.1 g.minB.1) g.eps.1),
   clampCoord g.dims.2 (qdivTrunc (qsub p.2 g.minB.2) g.eps.2))

/-- `Grid::getCellIndex`: row-major mixed radix `c₀ + c₁·dims₀`. -/
def Grid.getCellIndex (g : Grid) (c : ℤ × ℤ) : ℤ := c.1 + c.2 * (g.dims.1 : ℤ)

/-- The in-range test performed by `Grid::getCell` before dereferencing. -/
def Grid.inRange (g : Grid) (c : ℤ × ℤ) : Prop :=
  0 ≤ c.1 ∧ c.1 < (g.dims.1 : ℤ) ∧ 0 ≤ c.2 ∧ c.2 < (g.dims.2 : ℤ)

instance (g : Grid) (c : ℤ × ℤ) : Decidable (g.inRange c) := by
  unfold Grid.inRange
  infer_instance

/-- The flat index of the cell holding point `j` (`getCellIndex` of
`getGridCoords`, as used by `assignCells` and `getCell`). -/
def Grid.cellOf (g : Grid) (j : ℕ) : ℕ :=
  (g.getCellIndex (g.getGridCoords j)).toNat

/-- One step of `Grid::assignCells`: push point `i` into its cell. -/
def Grid.cellsStep (g : Grid) (cs : List (List ℕ)) (i : ℕ) : List (List ℕ) :=
  cs.set (g.cellOf i) (cs.getD (g.cellOf i) [] ++ [i])

/-- Steps 3–4 of `Grid::initGrid` (`allocateCells` + `assignCells`): a dense
array of `dims₀·dims₁` cells; each point index is appended, in ascending
order, to the cell of its grid coordinates. -/
def Grid.cells (g : Grid) : List (List ℕ) :=
  (List.range g.pts.length).foldl g.cellsStep
    (List.replicate (g.dims.1 * g.dims.2) [])

/-- `Grid::getCell`: the cell at integer coordinates `c`, or `none`
(`nullptr`) when a coordinate is out of range.  A cell is identified by its
flat index (the source's `const GridCell*` identifies it by address). -/
def Grid.getCell (g : Grid) (c : ℤ × ℤ) : Option ℕ :=
  if g.inRange c then some (g.getCellIndex c).toNat else none

/-- The 3² offsets enumerated by `Grid::enumerateNeighborOffsets`, in its
order (dimension 0 is the outer loop). -/
def neighborOffsets : List (ℤ × ℤ) :=
  [(-1, -1), (-1, 0), (-1, 1), (0, -1), (0, 0), (0, 1), (1, -1), (1, 0), (1, 1)]

/-- `Grid::getNeighborCells`: the existing cells at `base + offset` over the
3² offsets, dropping out-of-range ones. -/
def Grid.getNeighborCells (g : Grid) (base : ℤ × ℤ) : List ℕ :=
  neighborOffsets.filterMap (fun o => g.getCell (base.1 + o.1, base.2 + o.2))

/-- `DBSCAN::findNeighbors` for one point (the `NeighborList` slot `N(i)`):
over the neighbor cells of point `i`'s cell, collect every index `j ≠ i`
passing `areNeighbors`.  (Given the same grid, filtering inline per cell as
the union-find variant does and gathering candidates first and then calling
`computeNeighbors` as the jagged/CSR variants do produce this same
sequence; but see C10 — the jagged and CSR translation units query a grid
on which `initGrid()` was never run.) -/
def Grid.neighborsOf (g : Grid) (i : ℕ) : List ℕ :=
  (g.getNeighborCells (g.getGridCoords i)).flatMap
    (fun k => (g.cells.getD k []).filter
      (fun j => decide (j ≠ i) &&
        areNeighbors g.eps (g.pts.getD i (0, 0)) (g.pts.getD j (0, 0))))

/-- `DBSCAN::findNeighbors` as in the union-find translation unit: construct
the grid, run `initGrid()`, then compute `N(i)`.  The jagged
(`DBSCAN.cxx`) and CSR variants of `findNeighbors` construct the grid but
never call `initGrid()` (see claim C10 and `rawGrid` below); this
definition models the initialized pipeline they evidently intend. -/
def findNeighbors (ps : List Pt) (eps : Pt) : ℕ → List ℕ :=
  fun i => (mkGrid ps eps).neighborsOf i

/-! Concurrent union–find (`find`/`unite` of the union-find source file),
modelled sequentially: the atomic parent array is a `List ℕ` (entry `i` read
as `P.getD i i`), a CAS always succeeds, and the path-halving loop carries
explicit fuel (`x + 1` steps suffice whenever `parent[i] ≤ i`, proved
below). -/

/-- The body of `find`'s `while (true)` loop with explicit fuel:
read `p = parent[x]`; if `p == x` return `x`; read `gp = parent[p]`; if
`gp == p` return `p`; otherwise path-halve (`parent[x] ← gp`) and continue
from `p`.  Returns the updated parent array and the root, or `none` if the
fuel runs out. -/
def findAux : ℕ → List ℕ → ℕ → Option (List ℕ × ℕ)
  | 0, _, _ => none
  | fuel + 1, P, x =>
    let p := P.getD x x
    if p = x then some (P, x)
    else
      let gp := P.getD p p
      if gp = p then some (P, p)
      else findAux fuel (P.set x gp) p

/-- `find(parent, x)`.  Fuel `x + 1` never runs out on states with
`parent[i] ≤ i` (theorem on termination below); the fallback value is never
reached on such states. -/
def find (P : List ℕ) (x : ℕ) : List ℕ × ℕ := (findAux (x + 1) P x).getD (P, x)

/-- `unite(parent, x, y)`: find both roots; if equal, done; otherwise point
the larger root at the smaller (`smaller root wins`); sequentially the CAS
succeeds on the first attempt, so the retry loop runs once. -/
def unite (P : List ℕ) (x y : ℕ) : List ℕ :=
  let fx := find P x
  let fy := find fx.1 y
  if fx.2 = fy.2 then fy.1
  else (fy.1).set (max fx.2 fy.2) (min fx.2 fy.2)

/-- Phase 1 of the union-find `classify`: `isCore[i] = (N(i).size ≥ minPts)`
(the size is compared as a signed integer against `minPts`). -/
def isCore (N : ℕ → List ℕ) (minPts : ℤ) (i : ℕ) : Bool :=
  decide (minPts ≤ ((N i).length : ℤ))

/-- Phase 2 of the union-find `classify`: starting from `parent[i] = i`
(phase 1's initialization), every core point is united with each of its
neighbors, in index order. -/
def phaseUnion (n : ℕ) (N : ℕ → List ℕ) (minPts : ℤ) : List ℕ :=
  (List.range n).foldl
    (fun P i =>
      if isCore N minPts i then (N i).foldl (fun P' j => unite P' i j) P else P)
    (List.range n)

/-- Phase 3 of the union-find `classify`: for each `i`, `root = find(i)`;
emit `root` as the (intermediate, not remapped) cluster ID if `isCore[root]`,
else `DB_NOISE = -1`. -/
def phaseLabels (n : ℕ) (N : ℕ → List ℕ) (minPts : ℤ) (P0 : List ℕ) : List ℤ :=
  ((List.range n).foldl
    (fun st i =>
      let fr := find st.1 i
      (fr.1, st.2 ++ [if isCore N minPts fr.2 then (fr.2 : ℤ) else -1]))
    (P0, ([] : List ℤ))).2

/-- The union-find `DBSCAN::classify`. -/
def classify (ps : List Pt) (eps : Pt) (minPts : ℤ) : List ℤ :=
  let n := ps.length
  let N := findNeighbors ps eps
  phaseLabels n N minPts (phaseUnion n N minPts)

/-- `DBSCANResult`: labels, `nClusters`, `nNoise`. -/
structure DBSCANResult where
  labels : List ℤ
  nClusters : ℤ
  nNoise : ℤ
deriving DecidableEq

/-- `max_element` over the labels (the label list is nonempty whenever it is
consulted, since `cluster` returns early for `n = 0`). -/
def maxLabel : List ℤ → ℤ
  | [] => -1
  | l :: ls => ls.foldl max l

/-- The union-find `DBSCAN::cluster`: early-out on `n = 0`; otherwise find
neighbors, classify, and set `nClusters = max_label + 1`,
`nNoise = count(labels, DB_NOISE)`.  (No relabel pass exists in this
variant: labels keep the raw root IDs of phase 3.) -/
def cluster (ps : List Pt) (eps : Pt) (minPts : ℤ) : DBSCANResult :=
  if ps.length = 0 then ⟨[], 0, 0⟩
  else
    let labels := classify ps eps minPts
    ⟨labels, maxLabel labels + 1, labels.count (-1)⟩

/-! The sequential BFS classifier (`DBSCAN.cxx`: `classify` with `visited[]`
and `expandCluster` over a `std::queue`).  The label and visited arrays are
`List ℤ` / `List Bool`; `DB_UNCLASSIFIED = -2`, `DB_NOISE = -1`. -/

/-- The inner loop of `expandCluster` over the neighbors of a core point:
unvisited neighbors are marked visited, labeled `idx`, and enqueued; already
visited neighbors labeled `DB_NOISE` are relabeled `idx` (border points).
Returns the updated labels, visited flags, and the enqueued indices. -/
def visitNeighbors (idx : ℤ) (nbrs : List ℕ) (L : List ℤ) (V : List Bool) :
    List ℤ × List Bool × List ℕ :=
  nbrs.foldl
    (fun acc nb =>
      if acc.2.1.getD nb false = false then
        (acc.1.set nb idx, acc.2.1.set nb true, acc.2.2 ++ [nb])
      else if acc.1.getD nb (-2) = -1 then (acc.1.set nb idx, acc.2.1, acc.2.2)
      else acc)
    (L, V, [])

/-- The `while (!seeds.empty())` loop of `expandCluster`, with explicit fuel
(each enqueue marks a previously unvisited point visited, so `n + 1` pops
always suffice). -/
def expandLoop (N : ℕ → List ℕ) (minPts : ℤ) (idx : ℤ) :
    ℕ → List ℕ → List ℤ → List Bool → List ℤ × List Bool
  | 0, _, L, V => (L, V)
  | _ + 1, [], L, V => (L, V)
  | fuel + 1, cur :: rest, L, V =>
    if decide (minPts ≤ ((N cur).length : ℤ)) then
      let s := visitNeighbors idx (N cur) L V
      expandLoop N minPts idx fuel (rest ++ s.2.2) s.1 s.2.1
    else expandLoop N minPts idx fuel rest L V

/-- `DBSCAN::expandCluster(i, idx, …)`: seed the queue with `i`, mark it
visited and labeled `idx`, then run the BFS loop. -/
def expandCluster (n : ℕ) (N : ℕ → List ℕ) (minPts : ℤ) (i : ℕ) (idx : ℤ)
    (L : List ℤ) (V : List Bool) : List ℤ × List Bool :=
  expandLoop N minPts idx (n + 1) [i] (L.set i idx) (V.set i true)

/-- The sequential `DBSCAN::classify` (`DBSCAN.cxx`): phase 2 starts a new
cluster (with the next dense index) from every not-yet-visited core point in
ascending order; phase 3 labels every unvisited point `DB_NOISE`.  The
classifier consumes the neighbor lists as data and is modelled here over the
correctly built lists (`findNeighbors` with the grid initialized); the
defect of that translation unit's own `findNeighbors` — querying a grid on
which `initGrid()` never ran — is treated separately in claim C10. -/
def classifySeq (ps : List Pt) (eps : Pt) (minPts : ℤ) : List ℤ :=
  let n := ps.length
  let N := findNeighbors ps eps
  let st := (List.range n).foldl
    (fun (acc : (List ℤ × List Bool) × ℤ) i =>
      if acc.1.2.getD i false = true then acc
      else if isCore N minPts i = false then acc
      else (expandCluster n N minPts i acc.2 acc.1.1 acc.1.2, acc.2 + 1))
    ((List.replicate n (-2), List.replicate n false), 0)
  (List.range n).map
    (fun i => if st.1.2.getD i false = true then st.1.1.getD i (-2) else -1)

/-- The sequential `DBSCAN::cluster` (`DBSCAN.cxx`), identical wrapper to the
union-find one. -/
def clusterSeq (ps : List Pt) (eps : Pt) (minPts : ℤ) : DBSCANResult :=
  if ps.length = 0 then ⟨[], 0, 0⟩
  else
    let labels := classifySeq ps eps minPts
    ⟨labels, maxLabel labels + 1, labels.count (-1)⟩

/-! Concrete inputs used by the claims.  `mkRat a b` denotes the rational
`a / b` (it is kept in `mkRat` form so that goals evaluate in the kernel);
all coordinate values below are exactly representable as binary floats or
behave identically to the float run on every comparison the pipeline makes. -/

/-- `eps = (0.5, 0.5)`. -/
def epsHalf : Pt := (mkRat 1 2, mkRat 1 2)

/-- One far-away noise point `(3,3)` (index 0) followed by a clump of four
copies of `(0,0)` (indices 1–4); with `minPts = 3` the clump is one cluster
whose union-find root is index 1. -/
def ptsRelabel : List Pt := [(3, 3), (0, 0), (0, 0), (0, 0), (0, 0)]

/-- Scenario S3: five copies of `(0,0)` (indices 0–4), five copies of
`(1,0)` (indices 5–9), and the midpoint `(0.5, 0)` (index 10). -/
def ptsMid : List Pt :=
  [(0, 0), (0, 0), (0, 0), (0, 0), (0, 0),
   (1, 0), (1, 0), (1, 0), (1, 0), (1, 0), (mkRat 1 2, 0)]

/-- A border point with the smallest index: index 0 at `(0.5, 0)`, a clump
of three copies of `(0,0)` (indices 1–3), and index 4 at `(−0.4, 0)`.  With
`minPts = 4`, indices 1–3 are core (each has 4 neighbors) and indices 0 and
4 are border points (3 neighbors each). -/
def ptsBorder : List Pt :=
  [(mkRat 1 2, 0), (0, 0), (0, 0), (0, 0), (mkRat (-2) 5, 0)]

/-- Scenario S2: five collinear points spaced `0.4` apart. -/
def ptsChain : List Pt :=
  [(0, 0), (mkRat 2 5, 0), (mkRat 4 5, 0), (mkRat 6 5, 0), (mkRat 8 5, 0)]

/-- Claim C1: the spec asserts a final relabel pass compacting intermediate
cluster IDs into dense `[0, K)` with `nClusters = K`.  The union-find
`cluster` has no such pass (its phase 3 comment defers a `remap later` that
never happens): on `ptsRelabel` the one real cluster keeps its raw root ID
`1`, the set of non-noise label values is `[1]` (not `[0]`), and
`nClusters = max_label + 1 = 2` although only `K = 1` cluster exists. -/
theorem C1_no_relabel_pass :
    cluster ptsRelabel epsHalf 3 = ⟨[-1, 1, 1, 1, 1], 2, 1⟩ ∧
    ((cluster ptsRelabel epsHalf 3).labels.filter (fun l => decide (0 ≤ l))).dedup
      = [1] ∧
    (cluster ptsRelabel epsHalf 3).nClusters = 2 := by
  refine ⟨by decide, by decide, by decide⟩

/-- Claim C2, counterexample: on scenario S3 the clustering does not return
`nClusters = 2` (neither the union-find `cluster` nor the sequential BFS
`cluster` does). -/
theorem C2_counterexample :
    (cluster ptsMid epsHalf 3).nClusters ≠ 2 ∧
    (clusterSeq ptsMid epsHalf 3).nClusters ≠ 2 := by
  refine ⟨by decide, by decide⟩

/-- Claim C2, amended: the midpoint `(0.5, 0)` has all ten other points in
its ε-box (distance exactly `0.5` on each side), hence is itself a core
point and merges the two clumps: both classifier variants return a single
cluster containing all eleven points, `nClusters = 1`, `nNoise = 0`. -/
theorem C2_amended :
    (findNeighbors ptsMid epsHalf 10).length = 10 ∧
    cluster ptsMid epsHalf 3 = ⟨List.replicate 11 0, 1, 0⟩ ∧
    clusterSeq ptsMid epsHalf 3 = ⟨List.replicate 11 0, 1, 0⟩ := by
  refine ⟨by decide, by decide, by decide⟩

/-- Claim C3: on `ptsBorder` with `minPts = 4`, index 1 is a core point and
index 0 lies in its ε-neighborhood, yet the union-find `classify` labels
every point noise: the min-root tie-break of `unite` makes the border point
0 (the smallest index of the component) the root, `isCore[0]` is false, and
phase 3 emits `DB_NOISE` for the entire cluster — contradicting the claim
that the root returned by `find` in phase 3 is always core. -/
theorem C3_border_root_not_core :
    isCore (findNeighbors ptsBorder epsHalf) 4 1 = true ∧
    0 ∈ findNeighbors ptsBorder epsHalf 1 ∧
    isCore (findNeighbors ptsBorder epsHalf) 4 0 = false ∧
    (cluster ptsBorder epsHalf 4).labels = [-1, -1, -1, -1, -1] := by
  refine ⟨by decide, by decide, by decide, by decide⟩

/-- Claim C4, counterexample: on scenario S2 (five points spaced `0.4`, with
`eps = 0.5`, `minPts = 3`, neighborhood counts excluding the point itself)
the clustering does not return one cluster. -/
theorem C4_counterexample :
    (cluster ptsChain epsHalf 3).nClusters ≠ 1 ∧
    (clusterSeq ptsChain epsHalf 3).nClusters ≠ 1 := by
  refine ⟨by decide, by decide⟩

/-- Claim C4, amended: under the self-excluded counting convention no point
of the chain reaches `minPts = 3` (interior points have exactly 2 neighbors,
endpoints 1), so there is no core point and every point is noise:
`labels = [-1,…]`, `nClusters = 0`, `nNoise = 5` in both variants. -/
theorem C4_amended :
    (∀ i, i < 5 → isCore (findNeighbors ptsChain epsHalf) 3 i = false) ∧
    cluster ptsChain epsHalf 3 = ⟨[-1, -1, -1, -1, -1], 0, 5⟩ ∧
    clusterSeq ptsChain epsHalf 3 = ⟨[-1, -1, -1, -1, -1], 0, 5⟩ := by
  refine ⟨by decide, by decide, by decide⟩

/-- Claim C6, counterexample: no parameter validation exists in the source —
with the invalid parameter `minPts = 0` the entry point does not fail and
returns a fully populated result (a single point becomes a core point of its
own cluster), contradicting `fails synchronously … no partial output`. -/
theorem C6_counterexample :
    cluster [((0 : ℚ), (0 : ℚ))] epsHalf 0 = ⟨[0], 1, 0⟩ ∧
    (cluster [((0 : ℚ), (0 : ℚ))] epsHalf 0).labels ≠ [] := by
  refine ⟨by decide, by decide⟩

/-- Claim C9: the two classifiers are not equivalent.  On `ptsBorder` with
`minPts = 4` the sequential BFS classifier produces one cluster holding all
five points (no noise) while the union-find classifier labels all five
points noise (see C3's root analysis): the partitions—and in particular the
noise sets—differ. -/
theorem C9_classifier_divergence :
    clusterSeq ptsBorder epsHalf 4 = ⟨[0, 0, 0, 0, 0], 1, 0⟩ ∧
    cluster ptsBorder epsHalf 4 = ⟨[-1, -1, -1, -1, -1], 0, 5⟩ ∧
    (cluster ptsBorder epsHalf 4).nNoise ≠ (clusterSeq ptsBorder epsHalf 4).nNoise := by
  refine ⟨by decide, by decide, by decide⟩

/-! Union-find safety invariants (spec §4.4, U-1/U-2) and termination of
`find`, over every state reachable from the phase-1 initialization
`parent[i] = i` by any sequence of `find` and `unite` calls. -/

/-- Invariant U-1: every parent entry is at most its index (entries outside
the array read back as self-parents). -/
def UFInv (P : List ℕ) : Prop := ∀ i, P.getD i i ≤ i

lemma ufInv_init (n : ℕ) : UFInv (List.range n) := by
  intro i
  rcases lt_or_le i (List.range n).length with h | h
  · rw [List.getD_eq_getElem?_getD, List.getElem?_eq_getElem h]
    simp
  · rw [List.getD_eq_getElem?_getD, List.getElem?_eq_none h]
    simp

lemma ufInv_set (P : List ℕ) (x v : ℕ) (hP : UFInv P) (hv : v ≤ x) :
    UFInv (P.set x v) := by
  intro i
  rw [List.getD_eq_getElem?_getD, List.getElem?_set]
  by_cases hxi : x = i
  · subst hxi
    by_cases hlen : x < P.length
    · simpa [hlen] using hv
    · simp [hlen]
  · rw [if_neg hxi, ← List.getD_eq_getElem?_getD]
    exact hP i

lemma findAux_inv :
    ∀ (fuel : ℕ) (P : List ℕ) (x : ℕ), UFInv P →
      ∀ pr, findAux fuel P x = some pr → UFInv pr.1 := by
  intro fuel
  induction fuel with
  | zero => intro P x _ pr hpr; simp [findAux] at hpr
  | succ fuel ih =>
    intro P x hP pr hpr
    simp only [findAux] at hpr
    split_ifs at hpr with h1 h2
    · cases hpr; exact hP
    · cases hpr; exact hP
    · exact ih _ _ (ufInv_set P x _ hP (le_trans (hP _) (hP x))) pr hpr

lemma findAux_isSome :
    ∀ (fuel x : ℕ) (P : List ℕ), UFInv P → x < fuel →
      (findAux fuel P x).isSome = true := by
  intro fuel
  induction fuel with
  | zero => intro x P _ hx; omega
  | succ fuel ih =>
    intro x P hP hx
    simp only [findAux]
    split_ifs with h1 h2
    · rfl
    · rfl
    · refine ih _ _ (ufInv_set P x _ hP (le_trans (hP _) (hP x))) ?_
      have := hP x
      omega

lemma find_inv (P : List ℕ) (x : ℕ) (hP : UFInv P) : UFInv (find P x).1 := by
  unfold find
  cases h : findAux (x + 1) P x with
  | none => simpa using hP
  | some pr => simpa using findAux_inv (x + 1) P x hP pr h

lemma unite_inv (P : List ℕ) (x y : ℕ) (hP : UFInv P) : UFInv (unite P x y) := by
  unfold unite
  have h1 := find_inv P x hP
  have h2 := find_inv (find P x).1 y h1
  dsimp only
  split_ifs
  · exact h2
  · exact ufInv_set _ _ _ h2 min_le_max

/-- One observable operation on the shared parent array: a `find` (with its
path-halving writes) or a `unite`. -/
inductive UFStep : List ℕ → List ℕ → Prop
  | findStep (P : List ℕ) (x : ℕ) : UFStep P (find P x).1
  | uniteStep (P : List ℕ) (x y : ℕ) : UFStep P (unite P x y)

/-- States of the parent array reachable from the initial `parent[i] = i`
(`i < n`) by any sequence of `find` and `unite` operations. -/
def UFReachable (n : ℕ) (P : List ℕ) : Prop :=
  Relation.ReflTransGen UFStep (List.range n) P

lemma ufReachable_inv {n : ℕ} {P : List ℕ} (h : UFReachable n P) : UFInv P := by
  induction h with
  | refl => exact ufInv_init n
  | tail _ hstep ih =>
    cases hstep with
    | findStep x => exact find_inv _ x ih
    | uniteStep x y => exact unite_inv _ x y ih

lemma iterate_getD_le (P : List ℕ) (hP : UFInv P) :
    ∀ (k x : ℕ), (fun i => P.getD i i)^[k] x ≤ x := by
  intro k
  induction k with
  | zero => simp
  | succ k ih =>
    intro x
    rw [Function.iterate_succ_apply]
    exact le_trans (ih _) (hP x)

/-- Claim C7: from the initial state `parent[i] = i`, every state reachable
by any sequence of `find` and `unite` operations satisfies `parent[i] ≤ i`
for every `i` (U-1), and the map `i ↦ parent[i]` has no cycle of length
greater than one (U-2): any `k`-fold iterate returning to its start forces a
self-parent (a root), so the parent graph is a forest. -/
theorem C7_parent_invariants (n : ℕ) (P : List ℕ) (h : UFReachable n P) :
    (∀ i, P.getD i i ≤ i) ∧
    (∀ x k, 0 < k → (fun i => P.getD i i)^[k] x = x → P.getD x x = x) := by
  have hP := ufReachable_inv h
  refine ⟨hP, fun x k hk hcyc => ?_⟩
  obtain ⟨m, rfl⟩ : ∃ m, k = m + 1 := ⟨k - 1, by omega⟩
  have h1 : (fun i => P.getD i i)^[m + 1] x ≤ P.getD x x := by
    rw [Function.iterate_succ_apply]
    exact iterate_getD_le P hP m _
  have h2 := hP x
  omega

/-- Witness for C7 at the concrete state reached by `unite` of 3 and 1 on
five singletons. -/
theorem C7_witness : (unite (List.range 5) 3 1).getD 3 3 ≤ 3 :=
  (C7_parent_invariants 5 (unite (List.range 5) 3 1)
    (Relation.ReflTransGen.single (UFStep.uniteStep (List.range 5) 3 1))).1 3

/-- Claim C8: `find(x)` terminates on every state reachable from the initial
parent array: the path-halving loop needs at most `x + 1` iterations because
each continuing iteration moves to a strictly smaller index (`parent[x] < x`
whenever `parent[x] ≠ x`, by U-1). -/
theorem C8_find_terminates (n : ℕ) (P : List ℕ) (h : UFReachable n P) (x : ℕ) :
    (findAux (x + 1) P x).isSome = true :=
  findAux_isSome (x + 1) x P (ufReachable_inv h) (Nat.lt_succ_self x)

/-- Witness for C8 at a concrete reachable state. -/
theorem C8_witness : (findAux 5 (unite (List.range 5) 3 1) 4).isSome = true :=
  C8_find_terminates 5 (unite (List.range 5) 3 1)
    (Relation.ReflTransGen.single (UFStep.uniteStep (List.range 5) 3 1)) 4

/-! Grid bounds safety (claim C10): clamped coordinates are always in range,
and every flat cell index formed from in-range coordinates addresses the
allocated cell array. -/

lemma clampCoord_nonneg (d : ℕ) (t : ℤ) : 0 ≤ clampCoord d t := le_max_left 0 _

lemma clampCoord_lt (d : ℕ) (hd : 1 ≤ d) (t : ℤ) : clampCoord d t < (d : ℤ) := by
  unfold clampCoord
  omega

lemma mkGrid_dims_pos (ps : List Pt) (eps : Pt) :
    1 ≤ (mkGrid ps eps).dims.1 ∧ 1 ≤ (mkGrid ps eps).dims.2 := by
  unfold mkGrid computeGridDims
  exact ⟨le_max_left 1 _, le_max_left 1 _⟩

lemma inRange_coords_of_dims (g : Grid) (h1 : 1 ≤ g.dims.1) (h2 : 1 ≤ g.dims.2)
    (i : ℕ) : g.inRange (g.getGridCoords i) := by
  unfold Grid.inRange Grid.getGridCoords
  refine ⟨clampCoord_nonneg _ _, clampCoord_lt _ h1 _,
    clampCoord_nonneg _ _, clampCoord_lt _ h2 _⟩

lemma inRange_getGridCoords (ps : List Pt) (eps : Pt) (i : ℕ) :
    (mkGrid ps eps).inRange ((mkGrid ps eps).getGridCoords i) :=
  inRange_coords_of_dims _ (mkGrid_dims_pos ps eps).1 (mkGrid_dims_pos ps eps).2 i

lemma cellIndex_toNat_lt (g : Grid) (c : ℤ × ℤ) (h : g.inRange c) :
    (g.getCellIndex c).toNat < g.dims.1 * g.dims.2 := by
  obtain ⟨h1, h2, h3, h4⟩ := h
  unfold Grid.getCellIndex
  have hd1 : (0 : ℤ) ≤ (g.dims.1 : ℤ) := by positivity
  have hmul : (c.2 + 1) * (g.dims.1 : ℤ) ≤ (g.dims.2 : ℤ) * (g.dims.1 : ℤ) :=
    mul_le_mul_of_nonneg_right (by omega) hd1
  have h5 : c.1 + c.2 * (g.dims.1 : ℤ) < (g.dims.2 : ℤ) * (g.dims.1 : ℤ) := by
    nlinarith
  have h6 : 0 ≤ c.2 * (g.dims.1 : ℤ) := mul_nonneg h3 hd1
  have hcast : ((g.dims.1 * g.dims.2 : ℕ) : ℤ) = (g.dims.2 : ℤ) * (g.dims.1 : ℤ) := by
    push_cast
    ring
  omega

lemma foldl_cellsStep_length (g : Grid) (l : List ℕ) :
    ∀ cs : List (List ℕ), (l.foldl g.cellsStep cs).length = cs.length := by
  induction l with
  | nil => intro cs; rfl
  | cons a l ih =>
    intro cs
    rw [List.foldl_cons, ih]
    unfold Grid.cellsStep
    rw [List.length_set]

lemma cells_length (g : Grid) : g.cells.length = g.dims.1 * g.dims.2 := by
  unfold Grid.cells
  rw [foldl_cellsStep_length]
  simp

/-- After `initGrid()` has run (as only the union-find variant does), every
grid access is inside initialized storage: the clamped coordinates are in
range, every flat index formed from in-range coordinates addresses the
allocated `cells` array, and that array's length is exactly `dims₀·dims₁`. -/
lemma initGrid_access_in_bounds (ps : List Pt) (eps : Pt) (i : ℕ) :
    (mkGrid ps eps).inRange ((mkGrid ps eps).getGridCoords i) ∧
    ((mkGrid ps eps).getCellIndex ((mkGrid ps eps).getGridCoords i)).toNat
      < (mkGrid ps eps).cells.length ∧
    (∀ c, (mkGrid ps eps).inRange c →
      ((mkGrid ps eps).getCellIndex c).toNat < (mkGrid ps eps).cells.length) ∧
    (mkGrid ps eps).cells.length = (mkGrid ps eps).dims.1 * (mkGrid ps eps).dims.2 := by
  have hin := inRange_getGridCoords ps eps i
  refine ⟨hin, ?_, ?_, cells_length _⟩
  · rw [cells_length]
    exact cellIndex_toNat_lt _ _ hin
  · intro c hc
    rw [cells_length]
    exact cellIndex_toNat_lt _ _ hc

/-- The grid object as the jagged (`DBSCAN.cxx`) and CSR `findNeighbors`
variants actually use it: `Grid grid(points, n, eps)` is constructed and
queried with `initGrid()` never called.  The constructor stores only the
point pointer, the count and the cell sizes; `mMinBounds` and `mGridDims`
remain indeterminate (reading them is undefined behavior in C++, so they are
arbitrary parameters here), and `mCells` remains the default-constructed
empty vector (`uninitCells`). -/
def rawGrid (ps : List Pt) (eps : Pt) (minB : Pt) (dims : ℕ × ℕ) : Grid :=
  { pts := ps, eps := eps, minB := minB, dims := dims }

/-- `mCells` of a grid on which `initGrid()` has not run: a
default-constructed `std::vector` is empty (`allocateCells` is what resizes
it to `dims₀·dims₁`). -/
def uninitCells : List (List ℕ) := []

/-- Claim C10 is violated by two of its three cited neighbor-list builders:
the jagged (`DBSCAN.cxx`) and CSR `findNeighbors` never call `initGrid()`,
so the first lookup queries an uninitialized grid.  Concretely: the cell
array is still the empty default vector (length 0, not the allocated
`dims₀·dims₁`), so no flat cell index whatsoever — in particular none that
passes `getCell`'s range check against the indeterminate `mGridDims` — is
within its bounds, and `getGridCoords` genuinely reads the indeterminate
`mMinBounds`/`mGridDims`: its result varies with the garbage values.  Only
the union-find variant runs `initGrid()` first (see
`initGrid_access_in_bounds`). -/
theorem C10_uninitialized_grid :
    uninitCells.length = 0 ∧
    (∀ (minB : Pt) (dims : ℕ × ℕ) (c : ℤ × ℤ),
      ¬(((rawGrid ptsMid epsHalf minB dims).getCellIndex c).toNat
        < uninitCells.length)) ∧
    (rawGrid ptsMid epsHalf (0, 0) (1, 1)).getGridCoords 0 ≠
      (rawGrid ptsMid epsHalf (mkRat (-1) 1, mkRat (-1) 1) (4, 4)).getGridCoords 0 ∧
    1 ≤ (mkGrid ptsMid epsHalf).cells.length := by
  refine ⟨rfl, ?_, by decide, by decide⟩
  intro minB dims c
  simp [uninitCells]

/-! Claim C6: behavior of `cluster` under the invalid parameter
`minPts ≤ 0` — the pipeline runs to completion, every point is trivially
core, and no point is noise. -/

lemma isCore_of_nonpos (N : ℕ → List ℕ) (minPts : ℤ) (hm : minPts ≤ 0) (r : ℕ) :
    isCore N minPts r = true := by
  unfold isCore
  exact decide_eq_true_eq.mpr (le_trans hm (by positivity))

lemma phaseLabels_all_nonneg (n : ℕ) (N : ℕ → List ℕ) (minPts : ℤ)
    (hm : minPts ≤ 0) (P0 : List ℕ) :
    ∀ l ∈ phaseLabels n N minPts P0, 0 ≤ l := by
  unfold phaseLabels
  have key : ∀ (l : List ℕ) (st : List ℕ × List ℤ), (∀ x ∈ st.2, 0 ≤ x) →
      ∀ x ∈ (l.foldl
        (fun st i =>
          let fr := find st.1 i
          (fr.1, st.2 ++ [if isCore N minPts fr.2 then (fr.2 : ℤ) else -1]))
        st).2, 0 ≤ x := by
    intro l
    induction l with
    | nil => intro st h x hx; exact h x hx
    | cons a l ih =>
      intro st h x hx
      rw [List.foldl_cons] at hx
      refine ih _ ?_ x hx
      intro y hy
      rcases List.mem_append.mp hy with hy | hy
      · exact h y hy
      · rw [List.mem_singleton] at hy
        rw [isCore_of_nonpos N minPts hm] at hy
        simp only [if_true] at hy
        subst hy
        positivity
  intro l hl
  exact key (List.range n) (P0, []) (by intro x hx; simp at hx) l hl

lemma phaseLabels_length (n : ℕ) (N : ℕ → List ℕ) (minPts : ℤ) (P0 : List ℕ) :
    (phaseLabels n N minPts P0).length = n := by
  unfold phaseLabels
  have key : ∀ (l : List ℕ) (st : List ℕ × List ℤ),
      (l.foldl
        (fun st i =>
          let fr := find st.1 i
          (fr.1, st.2 ++ [if isCore N minPts fr.2 then (fr.2 : ℤ) else -1]))
        st).2.length = st.2.length + l.length := by
    intro l
    induction l with
    | nil => intro st; simp
    | cons a l ih =>
      intro st
      rw [List.foldl_cons, ih]
      simp
      omega
  rw [key]
  simp

/-- Claim C6, amended: the entry point performs no parameter validation.
With `minPts ≤ 0` on a nonempty input it does not fail: it returns a label
list of full length in which every label is non-negative (every point is
trivially core, so its root is core), and `nNoise = 0`. -/
theorem C6_amended (ps : List Pt) (eps : Pt) (minPts : ℤ)
    (hm : minPts ≤ 0) (hne : ps ≠ []) :
    (cluster ps eps minPts).labels.length = ps.length ∧
    (∀ l ∈ (cluster ps eps minPts).labels, 0 ≤ l) ∧
    (cluster ps eps minPts).nNoise = 0 := by
  have hn : ¬ps.length = 0 := by simpa using hne
  have hcl : cluster ps eps minPts =
      ⟨classify ps eps minPts, maxLabel (classify ps eps minPts) + 1,
        ((classify ps eps minPts).count (-1) : ℕ)⟩ := by
    unfold cluster
    rw [if_neg hn]
  rw [hcl]
  dsimp only
  unfold classify
  dsimp only
  refine ⟨phaseLabels_length _ _ _ _, phaseLabels_all_nonneg _ _ _ hm _, ?_⟩
  rw [Nat.cast_eq_zero, List.count_eq_zero]
  intro hmem
  have := phaseLabels_all_nonneg _ _ _ hm _ (-1) hmem
  omega

/-- Witness for C6's amended statement at `minPts = 0` on a single point. -/
theorem C6_witness :
    (cluster [((0 : ℚ), (0 : ℚ))] epsHalf 0).nNoise = 0 :=
  (C6_amended [((0 : ℚ), (0 : ℚ))] epsHalf 0 (by decide) (by decide)).2.2

/-! Claim C5: correctness of the grid-based neighbor lists.  The chain of
facts: the per-dimension minimum bound is below every point; on in-situ
values the C cast (truncation) agrees with the floor; floor and clamp move
ε-close quotients by at most one cell, so a true ε-neighbor always lies in
one of the 3² enumerated cells; each point sits in exactly one cell, which
gives the ↔ characterization, symmetry, self-exclusion and freedom from
duplicates. -/

lemma foldl_min_fst_le (t : List Pt) :
    ∀ a : Pt, (t.foldl (fun a q => (min a.1 q.1, min a.2 q.2)) a).1 ≤ a.1 ∧
      (t.foldl (fun a q => (min a.1 q.1, min a.2 q.2)) a).2 ≤ a.2 := by
  induction t with
  | nil => intro a; exact ⟨le_refl _, le_refl _⟩
  | cons b t ih =>
    intro a
    rw [List.foldl_cons]
    refine ⟨le_trans (ih _).1 ?_, le_trans (ih _).2 ?_⟩
    · exact min_le_left _ _
    · exact min_le_left _ _

lemma foldl_min_le_mem (t : List Pt) :
    ∀ (a p : Pt), p ∈ t →
      (t.foldl (fun a q => (min a.1 q.1, min a.2 q.2)) a).1 ≤ p.1 ∧
      (t.foldl (fun a q => (min a.1 q.1, min a.2 q.2)) a).2 ≤ p.2 := by
  induction t with
  | nil => intro a p hp; cases hp
  | cons b t ih =>
    intro a p hp
    rw [List.foldl_cons]
    rcases List.mem_cons.mp hp with hp | hp
    · subst hp
      refine ⟨le_trans (foldl_min_fst_le t _).1 (min_le_right _ _),
        le_trans (foldl_min_fst_le t _).2 (min_le_right _ _)⟩
    · exact ih _ p hp

lemma computeMinBounds_le (ps : List Pt) (p : Pt) (hp : p ∈ ps) :
    (computeMinBounds ps).1 ≤ p.1 ∧ (computeMinBounds ps).2 ≤ p.2 := by
  cases ps with
  | nil => cases hp
  | cons q t =>
    unfold computeMinBounds
    rcases List.mem_cons.mp hp with hp | hp
    · rw [hp]
      exact foldl_min_fst_le t q
    · exact foldl_min_le_mem t q p hp

lemma abs_floor_sub_le_one (u w : ℚ) (h : |u - w| ≤ 1) : |⌊u⌋ - ⌊w⌋| ≤ 1 := by
  rw [abs_le] at h
  rw [abs_le]
  have h1 : w ≤ u + 1 := by linarith
  have h2 : u ≤ w + 1 := by linarith
  have h3 : ⌊w⌋ ≤ ⌊u + 1⌋ := Int.floor_le_floor h1
  have h4 : ⌊u⌋ ≤ ⌊w + 1⌋ := Int.floor_le_floor h2
  rw [Int.floor_add_one] at h3 h4
  omega

lemma clampCoord_dist (d : ℕ) (t1 t2 : ℤ) (h : |t1 - t2| ≤ 1) :
    |clampCoord d t1 - clampCoord d t2| ≤ 1 := by
  unfold clampCoord
  rw [abs_le] at h
  rw [abs_le]
  omega

lemma getD_mem_of_lt (ps : List Pt) (i : ℕ) (hi : i < ps.length) :
    ps.getD i (0, 0) ∈ ps := by
  rw [List.getD_eq_getElem?_getD, List.getElem?_eq_getElem hi]
  exact List.getElem_mem hi

/-- On a point of the set, the grid coordinate is the clamped floor of the
quotient: the truncating C cast agrees with the floor because the argument
`(p_d − min_d) / eps_d` is non-negative. -/
lemma getGridCoords_eq_floor (ps : List Pt) (eps : Pt)
    (he1 : 0 < eps.1) (he2 : 0 < eps.2) (i : ℕ) (hi : i < ps.length) :
    (mkGrid ps eps).getGridCoords i =
      (clampCoord (mkGrid ps eps).dims.1
        (⌊((ps.getD i (0, 0)).1 - (computeMinBounds ps).1) / eps.1⌋),
       clampCoord (mkGrid ps eps).dims.2
        (⌊((ps.getD i (0, 0)).2 - (computeMinBounds ps).2) / eps.2⌋)) := by
  obtain ⟨hm1, hm2⟩ := computeMinBounds_le ps _ (getD_mem_of_lt ps i hi)
  unfold Grid.getGridCoords
  dsimp only [mkGrid]
  rw [qsub_eq, qsub_eq, qdivTrunc_eq _ _ (by linarith) he1,
    qdivTrunc_eq _ _ (by linarith) he2]

/-- Two ε-neighboring points of the set land in cells at most one apart in
each dimension (invariant I-G3). -/
lemma coords_close (ps : List Pt) (eps : Pt)
    (he1 : 0 < eps.1) (he2 : 0 < eps.2) (i j : ℕ)
    (hi : i < ps.length) (hj : j < ps.length)
    (hnear : areNeighbors eps (ps.getD i (0, 0)) (ps.getD j (0, 0)) = true) :
    |((mkGrid ps eps).getGridCoords i).1 - ((mkGrid ps eps).getGridCoords j).1| ≤ 1 ∧
    |((mkGrid ps eps).getGridCoords i).2 - ((mkGrid ps eps).getGridCoords j).2| ≤ 1 := by
  rw [getGridCoords_eq_floor ps eps he1 he2 i hi,
    getGridCoords_eq_floor ps eps he1 he2 j hj]
  rw [areNeighbors_iff] at hnear
  constructor
  · apply clampCoord_dist
    apply abs_floor_sub_le_one
    rw [div_sub_div_same,
      show (ps.getD i (0, 0)).1 - (computeMinBounds ps).1 -
        ((ps.getD j (0, 0)).1 - (computeMinBounds ps).1)
        = (ps.getD i (0, 0)).1 - (ps.getD j (0, 0)).1 by ring]
    rw [abs_div, abs_of_pos he1, div_le_one he1]
    exact hnear.1
  · apply clampCoord_dist
    apply abs_floor_sub_le_one
    rw [div_sub_div_same,
      show (ps.getD i (0, 0)).2 - (computeMinBounds ps).2 -
        ((ps.getD j (0, 0)).2 - (computeMinBounds ps).2)
        = (ps.getD i (0, 0)).2 - (ps.getD j (0, 0)).2 by ring]
    rw [abs_div, abs_of_pos he2, div_le_one he2]
    exact hnear.2

lemma getD_replicate_nil (n k : ℕ) :
    (List.replicate n ([] : List ℕ)).getD k [] = [] := by
  rw [List.getD_eq_getElem?_getD]
  rcases lt_or_le k n with h | h
  · rw [List.getElem?_eq_getElem (by simpa using h)]
    simp [List.getElem_replicate]
  · rw [List.getElem?_eq_none (by simpa using h)]
    rfl

/-- Content of the cell array after inserting points `0, …, m−1`: cell `k`
holds point `j` exactly once if `j < m` and `k` is `j`'s cell, and not at
all otherwise (invariant I-G1 in counted form). -/
lemma cells_count_aux (g : Grid) (h1 : 1 ≤ g.dims.1) (h2 : 1 ≤ g.dims.2) :
    ∀ m k j : ℕ,
      (((List.range m).foldl g.cellsStep
        (List.replicate (g.dims.1 * g.dims.2) [])).getD k []).count j
      = if j < m ∧ k = g.cellOf j then 1 else 0 := by
  intro m
  induction m with
  | zero =>
    intro k j
    rw [List.range_zero, List.foldl_nil, getD_replicate_nil]
    simp
  | succ m ih =>
    intro k j
    rw [List.range_succ, List.foldl_append, List.foldl_cons, List.foldl_nil]
    set prev := (List.range m).foldl g.cellsStep
      (List.replicate (g.dims.1 * g.dims.2) []) with hprev
    have hlen : prev.length = g.dims.1 * g.dims.2 := by
      rw [hprev, foldl_cellsStep_length]
      simp
    have hkm : g.cellOf m < prev.length := by
      rw [hlen]
      exact cellIndex_toNat_lt g _ (inRange_coords_of_dims g h1 h2 m)
    unfold Grid.cellsStep
    rw [List.getD_eq_getElem?_getD, List.getElem?_set]
    by_cases hk : g.cellOf m = k
    · rw [if_pos hk, if_pos hkm, Option.getD_some, List.count_append,
        ih (g.cellOf m) j]
      subst hk
      simp only [List.count_cons, List.count_nil, beq_iff_eq, Nat.zero_add]
      by_cases hj : j = m
      · subst hj
        split_ifs <;> omega
      · split_ifs <;> omega
    · rw [if_neg hk, ← List.getD_eq_getElem?_getD, ih k j]
      by_cases hj : j = m
      · subst hj
        split_ifs <;> omega
      · split_ifs <;> omega

lemma cells_count (g : Grid) (h1 : 1 ≤ g.dims.1) (h2 : 1 ≤ g.dims.2) (k j : ℕ) :
    (g.cells.getD k []).count j
      = if j < g.pts.length ∧ k = g.cellOf j then 1 else 0 :=
  cells_count_aux g h1 h2 g.pts.length k j

lemma mem_cells_getD (g : Grid) (h1 : 1 ≤ g.dims.1) (h2 : 1 ≤ g.dims.2)
    (k j : ℕ) : j ∈ g.cells.getD k [] ↔ j < g.pts.length ∧ k = g.cellOf j := by
  have h := cells_count g h1 h2 k j
  constructor
  · intro hj
    by_contra hc
    rw [if_neg hc] at h
    rw [← List.count_pos_iff (a := j)] at hj
    omega
  · intro hc
    rw [if_pos hc] at h
    rw [← List.count_pos_iff (a := j)]
    omega

lemma cells_getD_nodup (g : Grid) (h1 : 1 ≤ g.dims.1) (h2 : 1 ≤ g.dims.2)
    (k : ℕ) : (g.cells.getD k []).Nodup := by
  rw [List.nodup_iff_count_le_one]
  intro j
  rw [cells_count g h1 h2 k j]
  split_ifs <;> omega

lemma mem_getNeighborCells (g : Grid) (base : ℤ × ℤ) (k : ℕ) :
    k ∈ g.getNeighborCells base ↔
      ∃ o ∈ neighborOffsets, g.inRange (base.1 + o.1, base.2 + o.2) ∧
        k = (g.getCellIndex (base.1 + o.1, base.2 + o.2)).toNat := by
  unfold Grid.getNeighborCells Grid.getCell
  rw [List.mem_filterMap]
  constructor
  · rintro ⟨o, ho, hfo⟩
    by_cases hin : g.inRange (base.1 + o.1, base.2 + o.2)
    · rw [if_pos hin] at hfo
      exact ⟨o, ho, hin, (Option.some_inj.mp hfo).symm⟩
    · rw [if_neg hin] at hfo
      cases hfo
  · rintro ⟨o, ho, hin, hk⟩
    exact ⟨o, ho, by rw [if_pos hin, hk]⟩

lemma getCellIndex_inj (g : Grid) (c c' : ℤ × ℤ) (hc : g.inRange c)
    (hc' : g.inRange c')
    (h : (g.getCellIndex c).toNat = (g.getCellIndex c').toNat) : c = c' := by
  obtain ⟨a1, a2, a3, a4⟩ := hc
  obtain ⟨b1, b2, b3, b4⟩ := hc'
  unfold Grid.getCellIndex at h
  have hd : (0 : ℤ) < (g.dims.1 : ℤ) := by omega
  have h6 : 0 ≤ c.2 * (g.dims.1 : ℤ) := mul_nonneg a3 hd.le
  have h7 : 0 ≤ c'.2 * (g.dims.1 : ℤ) := mul_nonneg b3 hd.le
  have heq : c.1 + c.2 * (g.dims.1 : ℤ) = c'.1 + c'.2 * (g.dims.1 : ℤ) := by omega
  have hm : c.1 = c'.1 := by
    have e1 := congrArg (fun z => z % (g.dims.1 : ℤ)) heq
    simp only [Int.add_mul_emod_self] at e1
    rwa [Int.emod_eq_of_lt a1 a2, Int.emod_eq_of_lt b1 b2] at e1
  have hs : c.2 = c'.2 := by
    have h8 : c.2 * (g.dims.1 : ℤ) = c'.2 * (g.dims.1 : ℤ) := by omega
    exact mul_right_cancel₀ hd.ne' h8
  exact Prod.ext hm hs

lemma getNeighborCells_nodup (g : Grid) (base : ℤ × ℤ) :
    (g.getNeighborCells base).Nodup := by
  unfold Grid.getNeighborCells
  apply List.Nodup.filterMap
  · intro o o' k hk hk'
    unfold Grid.getCell at hk hk'
    split_ifs at hk hk' with hin hin'
    · rw [Option.mem_def, Option.some_inj] at hk hk'
      have hco := getCellIndex_inj g _ _ hin hin' (by rw [hk, hk'])
      have e1 : base.1 + o.1 = base.1 + o'.1 := congrArg Prod.fst hco
      have e2 : base.2 + o.2 = base.2 + o'.2 := congrArg Prod.snd hco
      exact Prod.ext (by omega) (by omega)
    · exact absurd hk' (by simp)
    · exact absurd hk (by simp)
    · exact absurd hk (by simp)
  · decide

/-- The central characterization of the neighbor-list builder: for `i` in
range, `j ∈ N(i)` iff `j` is an in-range index other than `i` whose point is
an ε-neighbor of `p_i`.  The forward direction is the filter; the backward
direction is grid completeness: `j`'s cell is among the 3² neighbor cells of
`i`'s cell (I-G3), and `j` lies in that cell (I-G1). -/
lemma mem_neighborsOf (ps : List Pt) (eps : Pt) (he1 : 0 < eps.1)
    (he2 : 0 < eps.2) (i j : ℕ) (hi : i < ps.length) :
    j ∈ (mkGrid ps eps).neighborsOf i ↔
      j < ps.length ∧ j ≠ i ∧
      areNeighbors eps (ps.getD i (0, 0)) (ps.getD j (0, 0)) = true := by
  obtain ⟨hd1, hd2⟩ := mkGrid_dims_pos ps eps
  unfold Grid.neighborsOf
  rw [List.mem_flatMap]
  constructor
  · rintro ⟨k, _, hjk⟩
    rw [List.mem_filter] at hjk
    obtain ⟨hcell, hpred⟩ := hjk
    rw [mem_cells_getD _ hd1 hd2] at hcell
    rw [Bool.and_eq_true, decide_eq_true_eq] at hpred
    exact ⟨hcell.1, hpred.1, hpred.2⟩
  · rintro ⟨hjn, hji, hnear⟩
    refine ⟨(mkGrid ps eps).cellOf j, ?_, ?_⟩
    · rw [mem_getNeighborCells]
      obtain ⟨hc1, hc2⟩ := coords_close ps eps he1 he2 i j hi hjn hnear
      have hpair :
          (((mkGrid ps eps).getGridCoords i).1 +
            (((mkGrid ps eps).getGridCoords j).1 -
              ((mkGrid ps eps).getGridCoords i).1),
           ((mkGrid ps eps).getGridCoords i).2 +
            (((mkGrid ps eps).getGridCoords j).2 -
              ((mkGrid ps eps).getGridCoords i).2))
          = (mkGrid ps eps).getGridCoords j :=
        Prod.ext (by ring) (by ring)
      refine ⟨(((mkGrid ps eps).getGridCoords j).1 -
          ((mkGrid ps eps).getGridCoords i).1,
        ((mkGrid ps eps).getGridCoords j).2 -
          ((mkGrid ps eps).getGridCoords i).2), ?_, ?_, ?_⟩
      · have e1' := abs_le.mp hc1
        have e2' := abs_le.mp hc2
        have e1 : ((mkGrid ps eps).getGridCoords j).1 -
            ((mkGrid ps eps).getGridCoords i).1 = -1 ∨
            ((mkGrid ps eps).getGridCoords j).1 -
            ((mkGrid ps eps).getGridCoords i).1 = 0 ∨
            ((mkGrid ps eps).getGridCoords j).1 -
            ((mkGrid ps eps).getGridCoords i).1 = 1 := by omega
        have e2 : ((mkGrid ps eps).getGridCoords j).2 -
            ((mkGrid ps eps).getGridCoords i).2 = -1 ∨
            ((mkGrid ps eps).getGridCoords j).2 -
            ((mkGrid ps eps).getGridCoords i).2 = 0 ∨
            ((mkGrid ps eps).getGridCoords j).2 -
            ((mkGrid ps eps).getGridCoords i).2 = 1 := by omega
        rcases e1 with e1 | e1 | e1 <;> rcases e2 with e2 | e2 | e2 <;>
          rw [e1, e2] <;> simp [neighborOffsets]
      · rw [hpair]
        exact inRange_coords_of_dims _ hd1 hd2 j
      · rw [hpair]
        rfl
    · rw [List.mem_filter]
      refine ⟨?_, ?_⟩
      · rw [mem_cells_getD _ hd1 hd2]
        exact ⟨hjn, rfl⟩
      · rw [Bool.and_eq_true, decide_eq_true_eq]
        exact ⟨hji, hnear⟩

lemma neighborsOf_nodup (ps : List Pt) (eps : Pt) (i : ℕ) :
    ((mkGrid ps eps).neighborsOf i).Nodup := by
  obtain ⟨hd1, hd2⟩ := mkGrid_dims_pos ps eps
  unfold Grid.neighborsOf
  rw [List.nodup_flatMap]
  constructor
  · intro k _
    exact List.Nodup.filter _ (cells_getD_nodup _ hd1 hd2 k)
  · refine List.Pairwise.imp ?_ (getNeighborCells_nodup _ _)
    intro k k' hkk j hj hj'
    rw [List.mem_filter] at hj hj'
    rw [mem_cells_getD _ hd1 hd2] at hj hj'
    exact hkk (hj.1.2.trans hj'.1.2.symm)

/-- Claim C5: the neighbor-list builder is exactly the ε-neighbor relation.
For every input with positive `eps` and in-range indices `i ≠ j`:
`j ∈ N(i)` iff `areNeighbors(p_i, p_j)` — no true neighbor is missed even
though candidates come only from the 3² adjacent grid cells — and `N(i)` is
symmetric (I-N1), excludes `i` itself (I-N2), and holds no duplicates. -/
theorem C5_neighbor_lists_correct (ps : List Pt) (eps : Pt)
    (he1 : 0 < eps.1) (he2 : 0 < eps.2) (i j : ℕ)
    (hi : i < ps.length) (hj : j < ps.length) (hij : i ≠ j) :
    (j ∈ findNeighbors ps eps i ↔
      areNeighbors eps (ps.getD i (0, 0)) (ps.getD j (0, 0)) = true) ∧
    (j ∈ findNeighbors ps eps i ↔ i ∈ findNeighbors ps eps j) ∧
    i ∉ findNeighbors ps eps i ∧
    (findNeighbors ps eps i).Nodup := by
  have hmem := mem_neighborsOf ps eps he1 he2 i j hi
  have hmem' := mem_neighborsOf ps eps he1 he2 j i hj
  refine ⟨?_, ?_, ?_, neighborsOf_nodup ps eps i⟩
  · rw [show findNeighbors ps eps i = (mkGrid ps eps).neighborsOf i from rfl,
      hmem]
    constructor
    · rintro ⟨-, -, h⟩
      exact h
    · intro h
      exact ⟨hj, Ne.symm hij, h⟩
  · rw [show findNeighbors ps eps i = (mkGrid ps eps).neighborsOf i from rfl,
      show findNeighbors ps eps j = (mkGrid ps eps).neighborsOf j from rfl,
      hmem, hmem']
    constructor
    · rintro ⟨-, -, h⟩
      refine ⟨hi, hij, ?_⟩
      rw [areNeighbors_comm]
      exact h
    · rintro ⟨-, -, h⟩
      refine ⟨hj, Ne.symm hij, ?_⟩
      rw [areNeighbors_comm]
      exact h
  · intro hmm
    rw [show findNeighbors ps eps i = (mkGrid ps eps).neighborsOf i from rfl,
      mem_neighborsOf ps eps he1 he2 i i hi] at hmm
    exact hmm.2.1 rfl

/-- Witness for C5 on the S3 input, indices 0 and 10. -/
theorem C5_witness :
    (10 ∈ findNeighbors ptsMid epsHalf 0 ↔
      areNeighbors epsHalf (ptsMid.getD 0 (0, 0)) (ptsMid.getD 10 (0, 0)) = true) ∧
    (10 ∈ findNeighbors ptsMid epsHalf 0 ↔ 0 ∈ findNeighbors ptsMid epsHalf 10) ∧
    0 ∉ findNeighbors ptsMid epsHalf 0 ∧
    (findNeighbors ptsMid epsHalf 0).Nodup :=
  C5_neighbor_lists_correct ptsMid epsHalf (by decide) (by decide) 0 10
    (by decide) (by decide) (by decide)

end dbscan
